import Mathlib

/-!
Shallow embedding of the qpmu plugin runtime and dispatch protocol:
the data model and `Input` selection handling from `qpmu-api/src/lib.rs`,
the prefix-routing loop, lazy plugin-list cell and ordered concurrent
loading from `src/plugins.rs`, the remote plugin server's activate and
complete handlers (frequency-store upsert included) from
`qpmu-api/src/lib.rs`, and the I/O error translation of the capability
shim from `src/plugins.rs`.

Machine integers are modelled as `Nat`; the `u16` selection bounds are
produced only by the `SelectionRange` constructors, which use values
below 2^16, and widened to `u32` by the identity (no truncation occurs
in the source since `u32::from(u16)` is lossless).
-/

namespace Qpmu

/-- Source `proto::ListItem` (qpmu-api/src/lib.rs): title, optional icon,
description and opaque metadata. -/
structure ListItem where
  title : String
  icon : Option String
  description : String
  metadata : String
deriving Repr, DecidableEq

/-- Source `ListItem::new` (qpmu-api/src/lib.rs): title only, no icon, empty
description and metadata. -/
def ListItem.new (title : String) : ListItem :=
  { title := title, icon := none, description := "", metadata := "" }

/-- Source `SelectionRange` (qpmu-api/src/lib.rs): a pair of `u16` bounds,
modelled as `Nat`s. -/
structure SelectionRange where
  lower_bound : Nat
  upper_bound : Nat
deriving Repr, DecidableEq

/-- Source `SelectionRange::at`: both bounds at the given index. -/
def SelectionRange.atIndex (index : Nat) : SelectionRange :=
  { lower_bound := index, upper_bound := index }

/-- Source `SelectionRange::all`: lower bound 0, upper bound `u16::MAX`. -/
def SelectionRange.all : SelectionRange :=
  { lower_bound := 0, upper_bound := 65535 }

/-- Source `SelectionRange::start`: both bounds 0. -/
def SelectionRange.start : SelectionRange :=
  SelectionRange.atIndex 0

/-- Source `SelectionRange::end`: both bounds at `u16::MAX`. -/
def SelectionRange.end_ : SelectionRange :=
  SelectionRange.atIndex 65535

/-- Source `proto::Input` (qpmu-api/src/lib.rs): query text plus the selection
bounds widened to `u32` (`range_lb`, `range_ub`). -/
structure Input where
  query : String
  range_lb : Nat
  range_ub : Nat
deriving Repr, DecidableEq

/-- Source `Input::new` (qpmu-api/src/lib.rs): the given query with the cursor
placed at the end (`SelectionRange::end()`), bounds widened by
`u32::from`. -/
def Input.new (query : String) : Input :=
  let range := SelectionRange.end_
  { query := query, range_lb := range.lower_bound, range_ub := range.upper_bound }

/-- Source `Input::select` (qpmu-api/src/lib.rs): the source assigns
`sel.lower_bound` to BOTH `range_lb` and `range_ub`. -/
def Input.select (self : Input) (sel : SelectionRange) : Input :=
  { self with range_lb := sel.lower_bound, range_ub := sel.lower_bound }

/-- Source `Action` (qpmu-api/src/lib.rs): the closed set of effects a plugin
can request on activation. -/
inductive Action where
  | close : Action
  | runCommand (cmd : String) (args : List String) : Action
  | runShell (command : String) : Action
  | copy (text : String) : Action
  | setInput (input : Input) : Action
deriving Repr, DecidableEq

/-- Source `proto::Command` (wire form of `RunCommand`). -/
structure Command where
  cmd : String
  args : List String
deriving Repr, DecidableEq

/-- Source `proto::action::Action` (the wire-level tagged union). -/
inductive ProtoActionInner where
  | close : ProtoActionInner
  | runCommand (c : Command) : ProtoActionInner
  | runShell (s : String) : ProtoActionInner
  | copy (s : String) : ProtoActionInner
  | setInput (input : Input) : ProtoActionInner
deriving Repr, DecidableEq

/-- Source `proto::Action`: the wire message wraps the union in an `Option`. -/
structure ProtoAction where
  action : Option ProtoActionInner
deriving Repr, DecidableEq

/-- Source `Action::map_to_proto` (qpmu-api/src/lib.rs). -/
def Action.map_to_proto : Action → ProtoAction
  | .close => ⟨some .close⟩
  | .runCommand cmd args => ⟨some (.runCommand ⟨cmd, args⟩)⟩
  | .runShell s => ⟨some (.runShell s)⟩
  | .copy s => ⟨some (.copy s)⟩
  | .setInput input => ⟨some (.setInput input)⟩

/-! ## Prefix routing (src/plugins.rs, `process_ui_event`, InputChanged arm)

A loaded plugin is abstracted by its routing prefix and its
`complete_query` operation (`Result<Option<Vec<ListItem>>>` in the
source becomes `Except String (Option (List ListItem))`).  The loop is
embedded with an explicit invocation trace: the list of
(plugin, stripped query) pairs whose `complete_query` the loop called,
in call order. -/

/-- Source `str::strip_prefix` as used by the routing loop, at character
granularity: `some` of the remainder when `pre` is a literal prefix of
`q`, otherwise `none`. -/
def stripPrefixOpt (q pre : String) : Option String :=
  if pre.data.isPrefixOf q.data then some ⟨q.data.drop pre.data.length⟩ else none

/-- A loaded plugin as the routing loop sees it: `plugin.prefix()` and
`plugin.complete_query(..)`. -/
structure PluginM where
  prefixStr : String
  complete_query : String → Except String (Option (List ListItem))

/-- Source `PluginEvent` (src/plugins.rs). -/
inductive PluginEvent where
  | setList (items : List ListItem)
  | activate (actions : List Action)
deriving DecidableEq

/-- The `UiEvent::InputChanged` arm of `process_ui_event`
(src/plugins.rs): try plugins in order; on the first whose prefix
matches and whose `complete_query` returns `Ok(Some(list))`, return
`SetList(list)`; `Ok(None)` continues to the next plugin; an `Err`
propagates (the `?`); if the loop falls through, return
`SetList(vec![])`.  The second component is the invocation trace. -/
def process_input_changed :
    List PluginM → String → Except String PluginEvent × List (PluginM × String)
  | [], _ => (.ok (.setList []), [])
  | p :: rest, query =>
    match stripPrefixOpt query p.prefixStr with
    | none => process_input_changed rest query
    | some stripped =>
      match p.complete_query stripped with
      | .error e => (.error e, [(p, stripped)])
      | .ok (some list) => (.ok (.setList list), [(p, stripped)])
      | .ok none =>
        let r := process_input_changed rest query
        (r.1, (p, stripped) :: r.2)

/-- A plugin that does not claim query `q`: either its prefix does not
match, or its query operation answers `Ok(None)` ("not applicable"). -/
def notApplicable (q : String) (p : PluginM) : Prop :=
  stripPrefixOpt q p.prefixStr = none ∨
  ∃ s, stripPrefixOpt q p.prefixStr = some s ∧ p.complete_query s = .ok none

/-- The plugins of `plugins` whose prefix matches `q`, paired with the
stripped query: exactly the calls the loop makes while every plugin
defers. -/
def invokedCalls (q : String) (plugins : List PluginM) : List (PluginM × String) :=
  plugins.filterMap fun p => (stripPrefixOpt q p.prefixStr).map fun s => (p, s)

theorem route_all_none (plugins : List PluginM) (q : String)
    (h : ∀ r ∈ plugins, notApplicable q r) :
    process_input_changed plugins q = (.ok (.setList []), invokedCalls q plugins) := by
  induction plugins with
  | nil => rfl
  | cons p rest ih =>
    have hp := h p (List.mem_cons_self p rest)
    have hrest := fun r hr => h r (List.mem_cons_of_mem p hr)
    rcases hp with hnone | ⟨s, hs, hq⟩
    · simp [process_input_changed, invokedCalls, hnone, ih hrest]
    · simp [process_input_changed, invokedCalls, hs, hq, ih hrest]

theorem stripPrefixOpt_eq_some {q pre s : String}
    (h : stripPrefixOpt q pre = some s) :
    pre.data.isPrefixOf q.data = true ∧ s = ⟨q.data.drop pre.data.length⟩ := by
  unfold stripPrefixOpt at h
  split at h
  · exact ⟨by assumption, (Option.some.inj h).symm⟩
  · cases h

/-- Claim C1: routing tries plugins sequentially in registration order;
the first plugin whose prefix matches and whose query operation returns
`Some(list)` — even an empty list — owns the response, its list is
returned as `SetList`, and the trace shows that plugins after it are
never invoked; a plugin answering `None` merely lets iteration continue;
if every plugin is non-matching or answers `None`, the result is
`SetList([])`. -/
theorem route_first_owner_wins :
    (∀ (pre suf : List PluginM) (p : PluginM) (q s : String) (list : List ListItem),
      (∀ r ∈ pre, notApplicable q r) →
      stripPrefixOpt q p.prefixStr = some s →
      p.complete_query s = .ok (some list) →
      process_input_changed (pre ++ p :: suf) q =
        (.ok (.setList list), invokedCalls q pre ++ [(p, s)])) ∧
    (∀ (plugins : List PluginM) (q : String),
      (∀ r ∈ plugins, notApplicable q r) →
      process_input_changed plugins q = (.ok (.setList []), invokedCalls q plugins)) := by
  constructor
  · intro pre suf p q s list hpre hs hq
    induction pre with
    | nil => simp [process_input_changed, invokedCalls, hs, hq]
    | cons r rest ih =>
      have hr := hpre r (List.mem_cons_self r rest)
      have hrest := fun x hx => hpre x (List.mem_cons_of_mem r hx)
      rcases hr with hnone | ⟨t, ht, htq⟩
      · simp [process_input_changed, invokedCalls, hnone, ih hrest]
      · simp [process_input_changed, invokedCalls, ht, htq, ih hrest]
  · exact route_all_none

/-- A plugin whose (empty) prefix matches everything but that always
defers with `Ok(None)`. -/
def pluginDefer : PluginM :=
  ⟨"", fun _ => .ok none⟩

/-- A plugin owning queries with prefix `"g "`. -/
def pluginOwner : PluginM :=
  ⟨"g ", fun s => .ok (some [ListItem.new s])⟩

/-- A plugin placed after the owner; its query operation must never be
reached. -/
def pluginAfter : PluginM :=
  ⟨"", fun _ => .error "must never be invoked"⟩

theorem route_first_owner_wins_witness :
    process_input_changed [pluginDefer, pluginOwner, pluginAfter] "g hi" =
      (.ok (.setList [ListItem.new "hi"]),
        invokedCalls "g hi" [pluginDefer] ++ [(pluginOwner, "hi")]) :=
  route_first_owner_wins.1 [pluginDefer] [pluginAfter] pluginOwner "g hi" "hi"
    [ListItem.new "hi"]
    (by
      intro r hr
      simp only [List.mem_singleton] at hr
      subst hr
      exact Or.inr ⟨"g hi", rfl, rfl⟩)
    rfl rfl

/-- Claim C4: every query-operation call made by routing is to a plugin
whose prefix is a literal prefix of the query, and the text passed to it
is the query with that prefix stripped. -/
theorem route_only_calls_prefix_matches :
    ∀ (plugins : List PluginM) (q : String) (p : PluginM) (s : String),
      (p, s) ∈ (process_input_changed plugins q).2 →
      p.prefixStr.data.isPrefixOf q.data = true ∧
        s = ⟨q.data.drop p.prefixStr.data.length⟩ := by
  intro plugins q
  induction plugins with
  | nil => intro p s h; simp [process_input_changed] at h
  | cons r rest ih =>
    intro p s h
    cases hst : stripPrefixOpt q r.prefixStr with
    | none =>
      rw [process_input_changed, hst] at h
      exact ih p s h
    | some stripped =>
      cases hq : r.complete_query stripped with
      | error e =>
        rw [process_input_changed, hst] at h
        simp [hq] at h
        obtain ⟨hp, hs⟩ := h
        subst hp; subst hs
        exact stripPrefixOpt_eq_some hst
      | ok o =>
        cases o with
        | none =>
          rw [process_input_changed, hst] at h
          simp [hq] at h
          rcases h with ⟨hp, hs⟩ | h
          · subst hp; subst hs
            exact stripPrefixOpt_eq_some hst
          · exact ih p s h
        | some list =>
          rw [process_input_changed, hst] at h
          simp [hq] at h
          obtain ⟨hp, hs⟩ := h
          subst hp; subst hs
          exact stripPrefixOpt_eq_some hst

theorem route_only_calls_prefix_matches_witness :
    pluginOwner.prefixStr.data.isPrefixOf "g hi".data = true ∧
      "hi" = String.mk ("g hi".data.drop pluginOwner.prefixStr.data.length) :=
  route_only_calls_prefix_matches [pluginDefer, pluginOwner, pluginAfter]
    "g hi" pluginOwner "hi"
    (by
      have htrace :
          (process_input_changed [pluginDefer, pluginOwner, pluginAfter] "g hi").2 =
            [(pluginDefer, "g hi"), (pluginOwner, "hi")] := rfl
      rw [htrace]
      simp)

/-! ## Plugin loading (src/plugins.rs, `cell_init`)

`cell_init` maps each configuration to a `Plugin::from_config` future
(`Ok` kept, `Err` logged and turned into `None` by `.ok()`), collects
them through a `FuturesOrdered`, and filters the `None`s out.
`FuturesOrdered` is modelled operationally: the futures complete in an
arbitrary schedule (a list of indices); each completion is buffered with
its index, and the collected output reads the buffer back in input-index
order.  The theorem shows the result is independent of the schedule. -/

/-- A plugin configuration entry (`config.plugins` element); only the
name is observable here, the rest is opaque to `cell_init`. -/
structure PluginConfig where
  name : String
deriving Repr, DecidableEq

/-- The stream of buffered completions: the schedule's indices paired
with the corresponding future's result, in completion order. -/
def completionEvents (fs : List (Option PluginM)) (sched : List Nat) :
    List (Nat × Option PluginM) :=
  sched.filterMap fun i => fs[i]?.map fun v => (i, v)

/-- Source `FuturesOrdered` collection: read the completion buffer back in
input-index order. -/
def collectOrdered (fs : List (Option PluginM)) (sched : List Nat) :
    List (Option PluginM) :=
  (List.range fs.length).filterMap fun i => List.lookup i (completionEvents fs sched)

/-- Source `cell_init` (src/plugins.rs): construct every configured plugin,
collect in input order under completion schedule `sched`, drop the
failures. -/
def load_plugins (from_config : PluginConfig → Option PluginM)
    (configs : List PluginConfig) (sched : List Nat) : List PluginM :=
  (collectOrdered (configs.map from_config) sched).filterMap id

theorem lookup_completionEvents (fs : List (Option PluginM)) (sched : List Nat)
    (i : Nat) (hi : i < fs.length) (hmem : i ∈ sched) :
    List.lookup i (completionEvents fs sched) = fs[i]? := by
  induction sched with
  | nil => cases hmem
  | cons j rest ih =>
    by_cases hij : i = j
    · subst hij
      have hfi : fs[i]? = some fs[i] := List.getElem?_eq_getElem hi
      simp [completionEvents, List.filterMap_cons, hfi, List.lookup]
    · have hmem' : i ∈ rest := by
        cases List.mem_cons.mp hmem with
        | inl h => exact absurd h hij
        | inr h => exact h
      cases hfj : fs[j]? with
      | none =>
        simpa [completionEvents, List.filterMap_cons, hfj] using ih hmem'
      | some v =>
        have hne : (i == j) = false := by simp [hij]
        simpa [completionEvents, List.filterMap_cons, hfj, List.lookup, hne]
          using ih hmem'

theorem filterMap_get_range (fs : List (Option PluginM)) :
    (List.range fs.length).filterMap (fun i => fs[i]?) = fs := by
  induction fs with
  | nil => rfl
  | cons a fs ih =>
    rw [List.length_cons, List.range_succ_eq_map, List.filterMap_cons,
      List.filterMap_map]
    have hfun : ((fun i => (a :: fs)[i]?) ∘ Nat.succ) = fun i => fs[i]? := by
      funext i
      simp
    rw [hfun, ih]
    simp

/-- A loader for the `[A, B(fails), C]` scenario: configuration `B`
fails to instantiate, every other configuration yields a plugin named
after it. -/
def exampleFromConfig : PluginConfig → Option PluginM :=
  fun c => if c.name = "B" then none else some ⟨c.name, fun _ => .ok none⟩

/-- The `[A, B(fails), C]` configuration sequence. -/
def exampleConfigs : List PluginConfig :=
  [⟨"A"⟩, ⟨"B"⟩, ⟨"C"⟩]

/-- Claim C5: with every future completing (each index below the input
length appears in the schedule), loading returns the successful plugins
in input-configuration order regardless of completion order, dropping
exactly the failed configurations; concretely, configurations
`[A, B(fails), C]` yield `[A, C]` even when completions arrive in the
order C, A, B. -/
theorem load_plugins_order_independent :
    (∀ (from_config : PluginConfig → Option PluginM)
        (configs : List PluginConfig) (sched : List Nat),
      (∀ i, i < (configs.map from_config).length → i ∈ sched) →
      load_plugins from_config configs sched =
        (configs.map from_config).filterMap id) ∧
    load_plugins exampleFromConfig exampleConfigs [2, 0, 1] =
      [⟨"A", fun _ => .ok none⟩, ⟨"C", fun _ => .ok none⟩] := by
  constructor
  · intro from_config configs sched hsched
    unfold load_plugins collectOrdered
    have hcong :
        (List.range (configs.map from_config).length).filterMap
            (fun i => List.lookup i (completionEvents (configs.map from_config) sched)) =
          (List.range (configs.map from_config).length).filterMap
            (fun i => (configs.map from_config)[i]?) := by
      apply List.filterMap_congr
      intro i hi
      exact lookup_completionEvents _ _ _ (List.mem_range.mp hi)
        (hsched i (List.mem_range.mp hi))
    rw [hcong, filterMap_get_range]
  · rfl

theorem load_plugins_order_independent_witness :
    load_plugins exampleFromConfig exampleConfigs [1, 2, 0] =
      (exampleConfigs.map exampleFromConfig).filterMap id :=
  load_plugins_order_independent.1 exampleFromConfig exampleConfigs [1, 2, 0]
    (by decide)

/-! ## Lazy once-only plugin-list cell (src/plugins.rs, `process_ui_event`)

`process_ui_event` keeps the plugin list in a `static OnceCell`,
running `cell_init` via `get_or_init` — but only on the
`InputChanged` arm; the `Activate` arm never touches the cell.  The
cell is modelled as `Option (List PluginM)` state threaded through the
events in processing order. -/

/-- Source `UiEvent` (src/plugins.rs). -/
inductive UiEvent where
  | inputChanged (query : String)
  | activate (item : ListItem)

/-- The effect of processing one UI event on the `OnceCell` holding the
plugin list: `InputChanged` runs `get_or_init` (initialising with
`initVal` exactly when the cell is empty); `Activate` does not touch the
cell. -/
def cellStep (initVal : List PluginM) (st : Option (List PluginM)) :
    UiEvent → Option (List PluginM)
  | .inputChanged _ => some (st.getD initVal)
  | .activate _ => st

/-- The cell state after processing a sequence of UI events in order. -/
def cellAfter (initVal : List PluginM) (st : Option (List PluginM))
    (evs : List UiEvent) : Option (List PluginM) :=
  evs.foldl (cellStep initVal) st

/-- Claim C6 counterexample: the first processed UI event does NOT
always trigger loading — an `Activate` event arriving first leaves the
plugin list uninitialised. -/
theorem cell_first_event_counterexample :
    cellAfter [pluginDefer] none [UiEvent.activate (ListItem.new "x")] = none :=
  rfl

/-- Claim C6 (amended): the plugin list is initialised at most once per
process — the first `InputChanged` event triggers loading, an
`Activate` event neither triggers nor alters it, and once initialised
the list is never modified or reset by any later event sequence. -/
theorem cell_init_at_most_once :
    (∀ (initVal : List PluginM) (q : String),
      cellStep initVal none (.inputChanged q) = some initVal) ∧
    (∀ (initVal l : List PluginM) (ev : UiEvent),
      cellStep initVal (some l) ev = some l) ∧
    (∀ (initVal l : List PluginM) (evs : List UiEvent),
      cellAfter initVal (some l) evs = some l) ∧
    (∀ (initVal : List PluginM) (item : ListItem),
      cellStep initVal none (.activate item) = none) := by
  refine ⟨fun _ _ => rfl, fun initVal l ev => ?_, fun initVal l evs => ?_, fun _ _ => rfl⟩
  · cases ev <;> rfl
  · induction evs generalizing l with
    | nil => rfl
    | cons ev evs ih =>
      have hstep : cellStep initVal (some l) ev = some l := by cases ev <;> rfl
      show List.foldl (cellStep initVal) (cellStep initVal (some l) ev) evs = some l
      rw [hstep]
      exact ih l

/-- Claim C7: `Input::new(q)` always yields selection bounds
`range_lb = range_ub = 65535`, independent of the query `q` (an
end-of-text cursor); `SelectionRange::all()` yields `(0, 65535)`; and
every `Input` built by these constructors has both bounds within
`[0, 65535]`. -/
theorem input_new_bounds :
    (∀ q : String,
      (Input.new q).range_lb = 65535 ∧ (Input.new q).range_ub = 65535) ∧
    (SelectionRange.all.lower_bound = 0 ∧
      SelectionRange.all.upper_bound = 65535) ∧
    (∀ q : String,
      (Input.new q).range_lb ≤ 65535 ∧ (Input.new q).range_ub ≤ 65535) := by
  refine ⟨fun q => ⟨rfl, rfl⟩, ⟨rfl, rfl⟩, fun q => ⟨?_, ?_⟩⟩ <;>
    simp [Input.new, SelectionRange.end_, SelectionRange.atIndex]

/-- Claim C8: `Input::select` sets both resulting bounds to
`sel.lower_bound` (the upper bound of `sel` is ignored) and leaves the
query text unchanged. -/
theorem input_select_sets_both_bounds_to_lower (i : Input) (sel : SelectionRange) :
    (i.select sel).range_lb = sel.lower_bound ∧
    (i.select sel).range_ub = sel.lower_bound ∧
    (i.select sel).query = i.query :=
  ⟨rfl, rfl, rfl⟩

/-! ## Activation Frequency Store and the remote server's activate
handler (qpmu-api/src/lib.rs)

The `activations` table (`title UNIQUE, frequency, last_use`) is an
association list from title to record; `recordActivation` is the
meaning of the single SQL statement executed on activate:
`INSERT .. VALUES (?, 1, ?) ON CONFLICT (title) DO UPDATE SET
frequency = frequency + 1, last_use = excluded.last_use`.
Timestamps are opaque `Nat`s. -/

/-- One row's payload in the `activations` table. -/
structure ActivationRecord where
  frequency : Nat
  last_use : Nat
deriving Repr, DecidableEq

/-- The `activations` table: rows of (title, record). -/
abbrev ActivationsTable := List (String × ActivationRecord)

/-- The upsert performed by the activate handler's SQL statement:
insert `(title, 1, now)` when no row with this title exists, otherwise
update every row with this title to `frequency + 1` and
`last_use = now` (the `UNIQUE` column makes it at most one row). -/
def recordActivation (tbl : ActivationsTable) (title : String) (now : Nat) :
    ActivationsTable :=
  if tbl.any fun r => title == r.1 then
    tbl.map fun r =>
      if title = r.1 then (r.1, ⟨r.2.frequency + 1, now⟩) else r
  else
    tbl ++ [(title, ⟨1, now⟩)]

/-- Row of the table for a title, if any. -/
def findRecord (tbl : ActivationsTable) (title : String) : Option ActivationRecord :=
  List.lookup title tbl

/-- The stored frequency for a title, 0 when absent. -/
def frequencyOf (tbl : ActivationsTable) (title : String) : Nat :=
  ((findRecord tbl title).map ActivationRecord.frequency).getD 0

theorem findRecord_none_iff (tbl : ActivationsTable) (title : String) :
    findRecord tbl title = none ↔ (tbl.any fun r => title == r.1) = false := by
  induction tbl with
  | nil => simp [findRecord]
  | cons kv tl ih =>
    obtain ⟨k, v⟩ := kv
    by_cases h : title = k
    · have hb : (title == k) = true := by simp [h]
      simp [findRecord, List.lookup, hb, h]
    · have hb : (title == k) = false := by simp [h]
      simp only [findRecord, List.lookup, hb, List.any_cons, Bool.or_eq_false_iff]
      rw [findRecord] at ih
      simp [ih, hb]

theorem lookup_map_update (tbl : ActivationsTable) (title : String) (now : Nat) :
    List.lookup title (tbl.map fun r =>
        if title = r.1 then (r.1, ⟨r.2.frequency + 1, now⟩) else r) =
      (List.lookup title tbl).map fun r => ⟨r.frequency + 1, now⟩ := by
  induction tbl with
  | nil => rfl
  | cons kv tl ih =>
    obtain ⟨k, v⟩ := kv
    simp only [List.map_cons]
    by_cases h : title = k
    · subst h
      rw [if_pos rfl]
      simp [List.lookup]
    · rw [if_neg h]
      have hb : (title == k) = false := by simp [h]
      simp [List.lookup, hb, ih]

theorem lookup_map_update_other (tbl : ActivationsTable)
    (title title2 : String) (now : Nat) (hne : title2 ≠ title) :
    List.lookup title2 (tbl.map fun r =>
        if title = r.1 then (r.1, ⟨r.2.frequency + 1, now⟩) else r) =
      List.lookup title2 tbl := by
  induction tbl with
  | nil => rfl
  | cons kv tl ih =>
    obtain ⟨k, v⟩ := kv
    simp only [List.map_cons]
    by_cases h : title = k
    · subst h
      rw [if_pos rfl]
      have h2 : (title2 == title) = false := by simp [hne]
      simp [List.lookup, h2, ih]
    · rw [if_neg h]
      by_cases h2 : title2 = k
      · subst h2
        simp [List.lookup]

      · have hb2 : (title2 == k) = false := by simp [h2]
        simp [List.lookup, hb2, ih]

theorem lookup_append_table (t : String) (l1 l2 : ActivationsTable) :
    List.lookup t (l1 ++ l2) =
      match List.lookup t l1 with
      | some v => some v
      | none => List.lookup t l2 := by
  induction l1 with
  | nil => simp [List.lookup]
  | cons kv tl ih =>
    obtain ⟨k, v⟩ := kv
    by_cases h : t = k
    · have hb : (t == k) = true := by simp [h]
      simp [List.lookup, hb]
    · have hb : (t == k) = false := by simp [h]
      simp [List.lookup, hb, ih]

/-- Claim C3: the activate-time record operation has upsert semantics —
a missing title is inserted with frequency 1 and `last_use = now`; for
any table the frequency stored for the activated title afterwards is
exactly one more than before, `last_use` is overwritten with `now`, and
rows of every other title are untouched. -/
theorem recordActivation_upsert :
    (∀ (tbl : ActivationsTable) (title : String) (now : Nat),
      findRecord tbl title = none →
      recordActivation tbl title now = tbl ++ [(title, ⟨1, now⟩)]) ∧
    (∀ (tbl : ActivationsTable) (title : String) (now : Nat),
      frequencyOf (recordActivation tbl title now) title = frequencyOf tbl title + 1) ∧
    (∀ (tbl : ActivationsTable) (title : String) (now : Nat),
      (findRecord (recordActivation tbl title now) title).map ActivationRecord.last_use =
        some now) ∧
    (∀ (tbl : ActivationsTable) (title title2 : String) (now : Nat),
      title2 ≠ title →
      findRecord (recordActivation tbl title now) title2 = findRecord tbl title2) := by
  refine ⟨?_, ?_, ?_, ?_⟩
  · intro tbl title now h
    rw [findRecord_none_iff] at h
    simp [recordActivation, h]
  · intro tbl title now
    unfold recordActivation
    cases hany : tbl.any fun r => title == r.1 with
    | true =>
      cases hf : List.lookup title tbl with
      | none =>
        have := (findRecord_none_iff tbl title).mp hf
        rw [this] at hany
        cases hany
      | some v =>
        simp [frequencyOf, findRecord, lookup_map_update, hf]
    | false =>
      have hf : List.lookup title tbl = none :=
        (findRecord_none_iff tbl title).mpr hany
      simp [frequencyOf, findRecord, lookup_append_table, hf, List.lookup]
  · intro tbl title now
    unfold recordActivation
    cases hany : tbl.any fun r => title == r.1 with
    | true =>
      cases hf : List.lookup title tbl with
      | none =>
        have := (findRecord_none_iff tbl title).mp hf
        rw [this] at hany
        cases hany
      | some v =>
        simp [findRecord, lookup_map_update, hf]
    | false =>
      have hf : List.lookup title tbl = none :=
        (findRecord_none_iff tbl title).mpr hany
      simp [findRecord, lookup_append_table, hf, List.lookup]
  · intro tbl title title2 now hne
    unfold recordActivation
    cases hany : tbl.any fun r => title == r.1 with
    | true => simp [findRecord, lookup_map_update_other tbl title title2 now hne]
    | false =>
      have h2 : (title2 == title) = false := by simp [hne]
      cases hf2 : List.lookup title2 tbl with
      | none => simp [findRecord, lookup_append_table, hf2, List.lookup, h2]
      | some v => simp [findRecord, lookup_append_table, hf2]

theorem recordActivation_upsert_witness :
    findRecord [] "calc" = none ∧
    recordActivation [] "calc" 7 = [("calc", ⟨1, 7⟩)] :=
  ⟨rfl, recordActivation_upsert.1 [] "calc" 7 rfl⟩

/-- Source `tonic::Status` as the handlers build it: only
`Status::unknown(message)` is ever produced. -/
inductive Status where
  | unknown (msg : String)
deriving Repr, DecidableEq

/-- Source `map_result` (qpmu-api/src/lib.rs): an `Ok` becomes a response, an
`Err` becomes `Status::unknown` of the flattened cause chain (the chain
is modelled already joined into one string). -/
def map_result {α : Type} : Except String α → Except Status α
  | .ok v => .ok v
  | .error e => .error (.unknown e)

/-- The awaited operations of the activate handler, in issue order. -/
inductive ServerOp where
  | dbWrite (title : String)
  | pluginActivate (item : ListItem)
deriving Repr, DecidableEq

/-- Source `proto::ActivationResponse`. -/
structure ActivationResponse where
  actions : List ProtoAction
deriving Repr, DecidableEq

/-- The remote plugin server's `activate` handler
(qpmu-api/src/lib.rs): first the frequency-table upsert is executed and
awaited — a database error aborts through `?` as `Status::unknown`
before `T::activate` is reached — then the plugin's activate runs and
its actions are mapped to wire form through `map_result`.
`dbResult` is the environment's verdict on the SQL execute; on `ok` the
table changes per `recordActivation` at timestamp `now`.  Returns the
response, the resulting table, and the trace of awaited operations in
issue order. -/
def activate_handler (tbl : ActivationsTable) (now : Nat)
    (dbResult : Except String Unit)
    (pluginActivate : ListItem → Except String (List Action))
    (item : ListItem) :
    Except Status ActivationResponse × ActivationsTable × List ServerOp :=
  match dbResult with
  | .error e => (.error (.unknown e), tbl, [.dbWrite item.title])
  | .ok _ =>
    let tbl' := recordActivation tbl item.title now
    (map_result ((pluginActivate item).map fun actions =>
        ⟨actions.map Action.map_to_proto⟩),
      tbl', [.dbWrite item.title, .pluginActivate item])

/-- Claim C2: in the activate handler the frequency-store write is
issued and awaited first (the trace always starts with it); when the
write fails the whole call returns an error and the plugin's activate
never appears in the trace; when the write succeeds the frequency
upsert has happened whatever the plugin call then does. -/
theorem activate_write_first (tbl : ActivationsTable) (now : Nat)
    (dbResult : Except String Unit)
    (pluginActivate : ListItem → Except String (List Action)) (item : ListItem) :
    (∃ rest,
      (activate_handler tbl now dbResult pluginActivate item).2.2 =
        ServerOp.dbWrite item.title :: rest) ∧
    (∀ e, dbResult = .error e →
      (activate_handler tbl now dbResult pluginActivate item).1 =
          .error (.unknown e) ∧
        ServerOp.pluginActivate item ∉
          (activate_handler tbl now dbResult pluginActivate item).2.2) ∧
    (dbResult = .ok () →
      (activate_handler tbl now dbResult pluginActivate item).2.1 =
          recordActivation tbl item.title now ∧
        (activate_handler tbl now dbResult pluginActivate item).2.2 =
          [.dbWrite item.title, .pluginActivate item]) := by
  cases dbResult with
  | error e =>
    refine ⟨⟨[], rfl⟩, ?_, ?_⟩
    · intro e' he
      cases he
      exact ⟨rfl, by simp [activate_handler]⟩
    · intro h
      cases h
  | ok u =>
    cases u
    refine ⟨⟨[ServerOp.pluginActivate item], rfl⟩, ?_, ?_⟩
    · intro e' he
      cases he
    · intro _
      exact ⟨rfl, rfl⟩

theorem activate_write_first_witness :
    (activate_handler [] 0 (.error "db down") (fun _ => .ok [])
        (ListItem.new "x")).1 = .error (.unknown "db down") ∧
      ServerOp.pluginActivate (ListItem.new "x") ∉
        (activate_handler [] 0 (.error "db down") (fun _ => .ok [])
          (ListItem.new "x")).2.2 :=
  (activate_write_first [] 0 (.error "db down") (fun _ => .ok [])
    (ListItem.new "x")).2.1 "db down" rfl

/-- Source `proto::CompletionRequest`: query text plus an optional selected
item (optional at the wire level). -/
structure CompletionRequest where
  query : String
  selected : Option ListItem

/-- Source `proto::CompletionResponse`. -/
structure CompletionResponse where
  input : Option Input
deriving Repr, DecidableEq

/-- The remote plugin server's `complete` handler
(qpmu-api/src/lib.rs): `request.selected.expect("completion request
should always have an associated selected item")` panics when the
request carries no selected item; the panic is modelled as `none`
(no response of any kind, as opposed to `some (.error ..)`). -/
def complete_handler
    (pluginComplete : String → ListItem → Except String (Option Input))
    (req : CompletionRequest) :
    Option (Except Status CompletionResponse) :=
  match req.selected with
  | none => none
  | some item =>
    some (map_result ((pluginComplete req.query item).map fun input => ⟨input⟩))

/-- Claim C10: the complete handler panics — returns no response at
all, not an error response — exactly when the request has no selected
item; whenever a selected item is present the plugin's complete is
invoked with it and its result is returned, so under the precondition
that every completion request carries a selected item the panic branch
is unreachable. -/
theorem complete_panics_iff_no_selected :
    (∀ (pluginComplete : String → ListItem → Except String (Option Input))
        (req : CompletionRequest),
      req.selected = none → complete_handler pluginComplete req = none) ∧
    (∀ (pluginComplete : String → ListItem → Except String (Option Input))
        (q : String) (item : ListItem),
      complete_handler pluginComplete ⟨q, some item⟩ =
        some (map_result ((pluginComplete q item).map fun input => ⟨input⟩))) := by
  constructor
  · intro pluginComplete req h
    obtain ⟨q, sel⟩ := req
    cases h
    rfl
  · intro pluginComplete q item
    rfl

theorem complete_panics_iff_no_selected_witness :
    complete_handler (fun _ _ => .ok none) ⟨"q", none⟩ = none :=
  complete_panics_iff_no_selected.1 (fun _ _ => .ok none) ⟨"q", none⟩ rfl

/-! ## Capability shim I/O error translation (src/plugins.rs,
`impl From<io::Error> for host::IoError`) -/

/-- Source `std::io::ErrorKind`: the eighteen kinds named by the translation,
plus representative further kinds reaching the wildcard arm. -/
inductive ErrorKind where
  | notFound | permissionDenied | connectionRefused | connectionReset
  | connectionAborted | notConnected | addrInUse | addrNotAvailable
  | brokenPipe | alreadyExists | wouldBlock | invalidInput | timedOut
  | writeZero | interrupted | unsupported | unexpectedEof | outOfMemory
  | invalidData | isADirectory | storageFull | uncategorized
deriving Repr, DecidableEq

/-- A host `std::io::Error` as the translation observes it: its kind
and its `Display` message (`value.to_string()`). -/
structure IoErrorSrc where
  kind : ErrorKind
  msg : String
deriving Repr, DecidableEq

/-- Source `host::IoError`: the guest-visible fixed error enumeration. -/
inductive IoError where
  | notFound | permissionDenied | connectionRefused | connectionReset
  | connectionAborted | notConnected | addrInUse | addrNotAvailable
  | brokenPipe | alreadyExists | wouldBlock | invalidInput | timedOut
  | writeZero | interrupted | unsupported | unexpectedEof | outOfMemory
  | other (msg : String)
deriving Repr, DecidableEq

/-- Source `From<io::Error> for host::IoError` (src/plugins.rs): the eighteen
named kinds map to their namesakes, everything else to
`Other(value.to_string())`. -/
def io_error_to_host (e : IoErrorSrc) : IoError :=
  match e.kind with
  | .notFound => .notFound
  | .permissionDenied => .permissionDenied
  | .connectionRefused => .connectionRefused
  | .connectionReset => .connectionReset
  | .connectionAborted => .connectionAborted
  | .notConnected => .notConnected
  | .addrInUse => .addrInUse
  | .addrNotAvailable => .addrNotAvailable
  | .brokenPipe => .brokenPipe
  | .alreadyExists => .alreadyExists
  | .wouldBlock => .wouldBlock
  | .invalidInput => .invalidInput
  | .timedOut => .timedOut
  | .writeZero => .writeZero
  | .interrupted => .interrupted
  | .unsupported => .unsupported
  | .unexpectedEof => .unexpectedEof
  | .outOfMemory => .outOfMemory
  | _ => .other e.msg

/-- The eighteen kinds with a namesake guest variant. -/
def namesakeKinds : List ErrorKind :=
  [.notFound, .permissionDenied, .connectionRefused, .connectionReset,
   .connectionAborted, .notConnected, .addrInUse, .addrNotAvailable,
   .brokenPipe, .alreadyExists, .wouldBlock, .invalidInput, .timedOut,
   .writeZero, .interrupted, .unsupported, .unexpectedEof, .outOfMemory]

/-- Claim C9: the translation from host I/O errors to the guest error
vocabulary is total — each of the eighteen listed kinds maps to its
namesake variant whatever the message, and every other kind maps to
`Other` carrying the error's message. -/
theorem io_error_translation_total :
    (∀ msg : String,
      io_error_to_host ⟨.notFound, msg⟩ = .notFound ∧
      io_error_to_host ⟨.permissionDenied, msg⟩ = .permissionDenied ∧
      io_error_to_host ⟨.connectionRefused, msg⟩ = .connectionRefused ∧
      io_error_to_host ⟨.connectionReset, msg⟩ = .connectionReset ∧
      io_error_to_host ⟨.connectionAborted, msg⟩ = .connectionAborted ∧
      io_error_to_host ⟨.notConnected, msg⟩ = .notConnected ∧
      io_error_to_host ⟨.addrInUse, msg⟩ = .addrInUse ∧
      io_error_to_host ⟨.addrNotAvailable, msg⟩ = .addrNotAvailable ∧
      io_error_to_host ⟨.brokenPipe, msg⟩ = .brokenPipe ∧
      io_error_to_host ⟨.alreadyExists, msg⟩ = .alreadyExists ∧
      io_error_to_host ⟨.wouldBlock, msg⟩ = .wouldBlock ∧
      io_error_to_host ⟨.invalidInput, msg⟩ = .invalidInput ∧
      io_error_to_host ⟨.timedOut, msg⟩ = .timedOut ∧
      io_error_to_host ⟨.writeZero, msg⟩ = .writeZero ∧
      io_error_to_host ⟨.interrupted, msg⟩ = .interrupted ∧
      io_error_to_host ⟨.unsupported, msg⟩ = .unsupported ∧
      io_error_to_host ⟨.unexpectedEof, msg⟩ = .unexpectedEof ∧
      io_error_to_host ⟨.outOfMemory, msg⟩ = .outOfMemory) ∧
    (∀ e : IoErrorSrc, e.kind ∉ namesakeKinds →
      io_error_to_host e = .other e.msg) := by
  constructor
  · intro msg
    exact ⟨rfl, rfl, rfl, rfl, rfl, rfl, rfl, rfl, rfl, rfl, rfl, rfl,
      rfl, rfl, rfl, rfl, rfl, rfl⟩
  · intro e h
    obtain ⟨k, msg⟩ := e
    cases k <;> first | rfl | simp_all [namesakeKinds]

theorem io_error_translation_total_witness :
    io_error_to_host ⟨.invalidData, "bad data"⟩ = .other "bad data" :=
  io_error_translation_total.2 ⟨.invalidData, "bad data"⟩ (by decide)

end Qpmu
